import Mathlib

/-!
Verification of the cashback campaign engine of `sale_service.js`.

The development shallowly embeds the parts of `SaleService` that the
specification describes: the item normalizer (`_processItems`), the campaign
rule matcher (`_checkSaleCampaign` and its helper checks), the cashback
calculator (`_processSale`), the campaign selector
(`_findSaleWithBetterCampaign`), the ledger allocator (`_useCashback`,
`_getBalance`, the redemption branch of `_generateCashback`) and the
cancellation paths of `cancel`.

Modelling conventions:
- monetary amounts, quantities and dates are `Nat` (amounts are integer
  minor units in the source; dates only matter through their ordering);
- MongoDB documents become Lean structures, the sale collection becomes a
  `List LedgerRecord`, and each query/update is translated into an explicit
  filter / sort / map over that list;
- JavaScript `undefined`-able cashback fields become `Option Nat`; deleted
  fields become `none`;
- JS falsy tests on optional numeric campaign fields (`percentCashback`,
  `cashbackLimit`, `minSaleValue`, `maxProductsCart`, `cpfParticipationLimit`)
  are modelled by `0` meaning "unset", matching JS truthiness on numbers;
- a thrown JS `Error` becomes an `Except`/`Option` failure carrying the
  error message; a JS `TypeError` crash (property access on `undefined`)
  is the failure value "TypeError".
-/

/-- JS `String.prototype.split` on a one-character separator, on char lists:
`splitOnChar c s` never returns `[]`, and returns `[[]]` on the empty
string, as in JavaScript. -/
def splitOnChar (c : Char) : List Char → List (List Char)
  | [] => [[]]
  | x :: xs =>
    let r := splitOnChar c xs
    if x = c then [] :: r
    else
      match r with
      | [] => [[x]]
      | y :: ys => (x :: y) :: ys

/-- JS `String.prototype.trim` on char lists: drop whitespace at both ends. -/
def trimChars (s : List Char) : List Char :=
  ((s.dropWhile Char.isWhitespace).reverse.dropWhile Char.isWhitespace).reverse

/-- `split` lifted to `String` (shallow embedding of `partnumber.split`). -/
def jsSplit (s : String) (c : Char) : List String :=
  (splitOnChar c s.data).map String.mk

/-- `trim` lifted to `String`. -/
def jsTrim (s : String) : String :=
  String.mk (trimChars s.data)

/-- Status values stored in a sale document (`status` field). -/
inductive SaleStatus where
  | pending
  | available
  | used
  | canceled
  | expired
deriving DecidableEq, Repr

/-- A line item of a sale, with the facet fields the rule matcher reads,
the normalizer output fields, and the calculator output fields. -/
structure Item where
  partnumber : String
  unitPrice : Nat
  quantity : Nat
  group : String
  category1 : String
  category2 : String
  category3 : String
  category4 : String
  gender : String
  model : String
  colorCode : String
  size : String
  totalPrice : Nat
  matchedCampaigns : List String
  eligible : Bool
  unitCashback : Option Nat
  totalCashback : Option Nat
deriving DecidableEq, Repr

/-- A neutral item used to build concrete test inputs. -/
def baseItem : Item :=
  { partnumber := ""
    unitPrice := 0
    quantity := 0
    group := ""
    category1 := ""
    category2 := ""
    category3 := ""
    category4 := ""
    gender := ""
    model := ""
    colorCode := ""
    size := ""
    totalPrice := 0
    matchedCampaigns := []
    eligible := false
    unitCashback := none
    totalCashback := none }

/-- `_processItems` body for one item: destructure
`item.partnumber.split('.')` into `[model, colorCode, size]`, trim each and
set `totalPrice`.  With fewer than 3 segments the JS destructuring yields
`undefined` and the subsequent `.trim()` call throws a `TypeError`. -/
def processItem (item : Item) : Except String Item :=
  match jsSplit item.partnumber '.' with
  | model :: colorCode :: size :: _ =>
    .ok { item with
            model := jsTrim model
            colorCode := jsTrim colorCode
            size := jsTrim size
            totalPrice := item.unitPrice * item.quantity }
  | _ => .error "TypeError"

/-- `_processItems`: the `forEach` mutates each item in order and the first
crash aborts the whole call. -/
def processItems (items : List Item) : Except String (List Item) :=
  items.mapM processItem

/-- A payment method entry on the sale side (`sale.paymentMethod[i]`). -/
structure PaymentMethodUse where
  type : String
  flag : String
deriving DecidableEq, Repr

/-- A payment method allow-list entry on the campaign side.  The JS guard
`paymentMethod.flags && paymentMethod.flags !== ''` (a truthy, non-empty
flag allow-list) is modelled by `flags` being a non-empty list. -/
structure CampaignPayment where
  type : String
  flags : List String
deriving DecidableEq, Repr

/-- One eligibility rule: a conjunction over nine facets; an empty string
is a facet the rule does not constrain (JS `!!rule[ruleKey]` falsy). -/
structure Rule where
  group : String
  category1 : String
  category2 : String
  category3 : String
  category4 : String
  gender : String
  colorCode : String
  model : String
  size : String
deriving DecidableEq, Repr

/-- A rule with no facet set (every field falsy). -/
def emptyRule : Rule :=
  { group := "", category1 := "", category2 := "", category3 := ""
    category4 := "", gender := "", colorCode := "", model := "", size := "" }

/-- Campaign snapshot.  Numeric optional fields use `0` for "unset"
(falsy in the JS guards). -/
structure Campaign where
  code : String
  name : String
  status : String
  percentCashback : Nat
  valueCashback : Nat
  cashbackLimit : Nat
  minSaleValue : Nat
  maxProductsCart : Nat
  salesChannel : List String
  subsidiariesList : List String
  paymentMethod : List CampaignPayment
  rules : List Rule
  cpfParticipationLimit : Nat
deriving DecidableEq, Repr

/-- A neutral campaign used to build concrete test inputs. -/
def baseCampaign : Campaign :=
  { code := "C", name := "", status := "ACTIVE"
    percentCashback := 0, valueCashback := 0, cashbackLimit := 0
    minSaleValue := 0, maxProductsCart := 0
    salesChannel := [], subsidiariesList := [], paymentMethod := []
    rules := [], cpfParticipationLimit := 0 }

/-- The sale object as seen by the matcher and the calculator. -/
structure Sale where
  salesChannel : String
  orderOrigin : String
  paymentMethod : List PaymentMethodUse
  items : List Item
  matchedCampaigns : List String
  usedCampaign : String
  totalCashback : Nat
deriving DecidableEq, Repr

/-- A neutral sale used to build concrete test inputs. -/
def baseSale : Sale :=
  { salesChannel := "", orderOrigin := "", paymentMethod := []
    items := [], matchedCampaigns := [], usedCampaign := "", totalCashback := 0 }

/-- `_checkSalesChannelRule`: `campaign.salesChannel.includes(sale.salesChannel)`. -/
def checkSalesChannelRule (c : Campaign) (s : Sale) : Bool :=
  s.salesChannel ∈ c.salesChannel

/-- `_checkSubsidiariesChannelRule`: an absent or empty `subsidiariesList`
always passes, otherwise `sale.order.origin` must be listed. -/
def checkSubsidiariesChannelRule (c : Campaign) (s : Sale) : Bool :=
  if c.subsidiariesList.length < 1 then true
  else s.orderOrigin ∈ c.subsidiariesList

/-- `_checkPaymentMethodRule` on a single sale payment method: the campaign
must carry an entry of the same type (`filter(...)[0]`), and for card types
with a non-empty flag allow-list the flag must be allowed. -/
def paymentMethodOk (c : Campaign) (pm : PaymentMethodUse) : Bool :=
  match (c.paymentMethod.filter (fun p => p.type = pm.type)).head? with
  | none => false
  | some p =>
    if (p.type = "CREDIT_CARD" ∨ p.type = "DEBIT_CARD") ∧ p.flags ≠ [] then
      pm.flag ∈ p.flags
    else true

/-- `_checkPaymentMethodRule`: the `forEach` sets `result = false` on any
offending payment method, so the result is the conjunction over all of them. -/
def checkPaymentMethodRule (c : Campaign) (s : Sale) : Bool :=
  s.paymentMethod.all (paymentMethodOk c)

/-- One facet test inside `_checkItemsThatFollowRules`:
`!!rule[ruleKey] && rule[ruleKey] != item[ruleKey]` clears eligibility,
so the facet passes when it is falsy (empty) or equal to the item value. -/
def facetOk (ruleVal itemVal : String) : Bool :=
  if ruleVal ≠ "" ∧ ruleVal ≠ itemVal then false else true

/-- A rule matches an item when every one of the nine facets passes. -/
def ruleMatches (r : Rule) (it : Item) : Bool :=
  facetOk r.group it.group && facetOk r.category1 it.category1 &&
  facetOk r.category2 it.category2 && facetOk r.category3 it.category3 &&
  facetOk r.category4 it.category4 && facetOk r.gender it.gender &&
  facetOk r.colorCode it.colorCode && facetOk r.model it.model &&
  facetOk r.size it.size

/-- Per-item body of `_checkItemsThatFollowRules`: reset `eligible` and,
once per rule the item satisfies, push the campaign code onto the item
`matchedCampaigns` list. -/
def markItem (c : Campaign) (it : Item) : Item :=
  { it with
      eligible := false
      matchedCampaigns :=
        c.rules.foldl
          (fun acc r => if ruleMatches r it then acc ++ [c.code] else acc)
          it.matchedCampaigns }

/-- `_checkItemsThatFollowRules`: marks every item and reports whether at
least one (item, rule) pair matched (`hasOneProductOnRule`). -/
def checkItemsThatFollowRules (c : Campaign) (items : List Item) :
    List Item × Bool :=
  (items.map (markItem c),
   items.any (fun it => c.rules.any (fun r => ruleMatches r it)))

/-- The accumulator of `_checkMinSaleValueRule`: sum of `totalPrice` over
items whose `matchedCampaigns` includes the campaign code. -/
def matchedTotalValue (c : Campaign) (items : List Item) : Nat :=
  items.foldl
    (fun prev cur =>
      if c.code ∈ cur.matchedCampaigns then prev + cur.totalPrice else prev)
    0

/-- `_checkMinSaleValueRule`: fails only when `minSaleValue` is set and the
matched total value is below it. -/
def checkMinSaleValueRule (c : Campaign) (items : List Item) : Bool :=
  if c.minSaleValue ≠ 0 ∧ matchedTotalValue c items < c.minSaleValue then false
  else true

/-- The accumulator of `_checkMaxsalesCartRule`: sum of `quantity` over
items whose `matchedCampaigns` includes the campaign code. -/
def matchedTotalItems (c : Campaign) (items : List Item) : Nat :=
  items.foldl
    (fun prev cur =>
      if c.code ∈ cur.matchedCampaigns then prev + cur.quantity else prev)
    0

/-- `_checkMaxsalesCartRule`: fails only when `maxProductsCart` is set and
the matched quantity total exceeds it. -/
def checkMaxsalesCartRule (c : Campaign) (items : List Item) : Bool :=
  if c.maxProductsCart ≠ 0 ∧ c.maxProductsCart < matchedTotalItems c items then false
  else true

/-- `_checkCpfParticipationLimit`: the count of prior sales of this customer
under this campaign code is passed in as `participations` (a point-in-time
read of the sale collection); the check fails once the count meets the
limit. -/
def checkCpfParticipationLimit (limit participations : Nat) : Bool :=
  if participations ≥ limit then false else true

/-- `_checkSaleCampaign`: runs the checks in source order, returning
`(some reason, sale)` on the first failure and `(none, sale)` on success.
The sale object carries the item mutations performed by the item check and,
on success, the campaign code appended to `sale.matchedCampaigns`. -/
def checkSaleCampaign (c : Campaign) (s : Sale) (participations : Nat) :
    Option String × Sale :=
  if ¬ checkSalesChannelRule c s then (some "FAIL_SALES_CHANNEL_RULE", s)
  else if ¬ checkSubsidiariesChannelRule c s then
    (some "FAIL_SALES_SUBSIDIARIES_RULE", s)
  else if ¬ checkPaymentMethodRule c s then (some "FAIL_PAYMENT_METHOD_RULE", s)
  else
    let marked := checkItemsThatFollowRules c s.items
    let s1 := { s with items := marked.1 }
    if ¬ marked.2 then (some "FAIL_ITEMS_RULE", s1)
    else if c.maxProductsCart ≠ 0 ∧ ¬ checkMaxsalesCartRule c s1.items then
      (some "FAIL_MAX_SALES_CART_RULE", s1)
    else if c.minSaleValue ≠ 0 ∧ ¬ checkMinSaleValueRule c s1.items then
      (some "FAIL_MIN_VALUE_RULE", s1)
    else if c.cpfParticipationLimit ≠ 0 ∧
        ¬ checkCpfParticipationLimit c.cpfParticipationLimit participations then
      (some "FAIL_CPF_PARTICIPATION_LIMIT_RULE", s1)
    else (none, { s1 with matchedCampaigns := s1.matchedCampaigns ++ [c.code] })

/-- The participation check as a rule of the ordered check list: an unset
limit (the falsy guard of `_checkSaleCampaign`) passes, otherwise
`_checkCpfParticipationLimit` decides. -/
def cpfParticipationCheck (c : Campaign) (participations : Nat) : Bool :=
  decide (c.cpfParticipationLimit = 0) ||
    checkCpfParticipationLimit c.cpfParticipationLimit participations

/-- The seven rule checks, in the fixed order of `_checkSaleCampaign`, each
paired with its failure code.  The cart, value and participation checks read
the items after the item check has recorded its matches, as in the source. -/
def ruleChecks (c : Campaign) (s : Sale) (participations : Nat) :
    List (String × Bool) :=
  let marked := checkItemsThatFollowRules c s.items
  [("FAIL_SALES_CHANNEL_RULE", checkSalesChannelRule c s),
   ("FAIL_SALES_SUBSIDIARIES_RULE", checkSubsidiariesChannelRule c s),
   ("FAIL_PAYMENT_METHOD_RULE", checkPaymentMethodRule c s),
   ("FAIL_ITEMS_RULE", marked.2),
   ("FAIL_MAX_SALES_CART_RULE", checkMaxsalesCartRule c marked.1),
   ("FAIL_MIN_VALUE_RULE", checkMinSaleValueRule c marked.1),
   ("FAIL_CPF_PARTICIPATION_LIMIT_RULE",
    cpfParticipationCheck c participations)]

/-- The failure code of the first check in the list that fails, if any. -/
def firstFailure : List (String × Bool) → Option String
  | [] => none
  | (code, ok) :: rest => if ok then firstFailure rest else some code

/-- The EXACT-arithmetic idealization of
`_.floor(item.unitPrice * (campaign.percentCashback / 100))`: `Nat`
division is the floor of the exact rational quotient.  This is the formula
the specification states; the source evaluates the expression in binary64
floating point, which is modelled separately by `jsUnitCashback` and can
land one below this value (see the C3 divergence theorem).  The cap
analysis keeps this idealization: the cap mechanism compares and clamps
whatever the percentage branch accumulated, so only the comparison
structure matters there, not the exact accumulator value. -/
def unitCashbackOf (c : Campaign) (it : Item) : Nat :=
  it.unitPrice * c.percentCashback / 100

/-- Per-item body of the percentage branch of `_processSale`: a matched item
becomes eligible with its cashback fields set; any other item becomes
ineligible and its cashback fields are deleted. -/
def percentItemUpdate (c : Campaign) (it : Item) : Item :=
  if c.code ∈ it.matchedCampaigns then
    { it with
        eligible := true
        unitCashback := some (unitCashbackOf c it)
        totalCashback := some (unitCashbackOf c it * it.quantity) }
  else
    { it with eligible := false, unitCashback := none, totalCashback := none }

/-- The local `total` accumulator of `_processSale`: summed only over the
matched items of the percentage branch. -/
def percentTotal (c : Campaign) (items : List Item) : Nat :=
  items.foldl
    (fun total it =>
      if c.code ∈ it.matchedCampaigns then
        total + unitCashbackOf c it * it.quantity
      else total)
    0

/-- Lines 76-94 of `_processSale`: apply the percentage or fixed cashback
mode, returning the updated sale together with the local `total` accumulator
(which stays `0` in the fixed branch). -/
def applyCashbackMode (c : Campaign) (s : Sale) : Sale × Nat :=
  if c.percentCashback ≠ 0 then
    ({ s with
         items := s.items.map (percentItemUpdate c)
         totalCashback := percentTotal c s.items },
     percentTotal c s.items)
  else
    ({ s with totalCashback := c.valueCashback }, 0)

/-- Lines 96-103 of `_processSale`: when `cashbackLimit` is set and below
the local `total`, clamp the sale total to the limit and delete the cashback
fields of every item. -/
def applyCashbackLimit (c : Campaign) (st : Sale × Nat) : Sale :=
  if c.cashbackLimit ≠ 0 ∧ c.cashbackLimit < st.2 then
    { st.1 with
        totalCashback := c.cashbackLimit
        items := st.1.items.map
          (fun it => { it with unitCashback := none, totalCashback := none }) }
  else st.1

/-- The cashback computation of `_processSale`: record the used campaign,
apply the mode, then the cap.  The credit/expiration date assignments and
the `campaignData` snapshot of `_processSale` are not modelled; no claim
mentions them and they touch no cashback field. -/
def processSaleCashback (c : Campaign) (s : Sale) : Sale :=
  applyCashbackLimit c (applyCashbackMode c { s with usedCampaign := c.code })

/-- Stable insertion into a list sorted ascending by a `Nat` key: the new
element goes before the first element of key `≥` its own, hence after every
earlier element of equal key. -/
def insertByKey (key : α → Nat) (a : α) : List α → List α
  | [] => [a]
  | b :: l => if key a ≤ key b then a :: b :: l else b :: insertByKey key a l

/-- Stable ascending insertion sort by a `Nat` key, the behaviour of lodash
`_.sortBy(sales, ['totalCashback'])`. -/
def sortByKey (key : α → Nat) : List α → List α
  | [] => []
  | a :: l => insertByKey key a (sortByKey key l)

/-- `_findSaleWithBetterCampaign`: sort ascending by `totalCashback` and
`pop()` the last element (`none` on an empty list, as `pop` of `[]` is
`undefined`). -/
def findSaleWithBetterCampaign (sales : List Sale) : Option Sale :=
  (sortByKey (fun s => s.totalCashback) sales).getLast?

/-- The compact alternative summary kept per candidate
(`saleWithOtherCampaigns` in `_generateCashback`). -/
structure SaleSummary where
  usedCampaign : String
  totalCashback : Nat
deriving DecidableEq, Repr

/-- `saleWithOtherCampaigns`: every candidate, the selected one included, is
filed as a compact summary. -/
def saleWithOtherCampaigns (sales : List Sale) : List SaleSummary :=
  sales.map (fun s => { usedCampaign := s.usedCampaign, totalCashback := s.totalCashback })

/-- The selection the specification describes, written from its words: the
last element of the input attaining the maximal key (ties broken towards
the later element). -/
def lastMaxByKey (key : α → Nat) : List α → Option α
  | [] => none
  | a :: l =>
    match lastMaxByKey key l with
    | none => some a
    | some m => if key a ≤ key m then some m else some a

/-- An entry of a source record `cashbackUseHistory` array
(`_createOrAddCashbackUseHistory`): how much of this record a given
redemption sale consumed. -/
structure UseHistoryEntry where
  usedValue : Nat
  invoiceKey : String
  saleId : Nat
  date : Nat
deriving DecidableEq, Repr

/-- An entry of a redemption sale `history` array
(`_createCashbackFontHistory`): where the consumed funds came from
(`saleId` is the source record id, `from` its invoice key). -/
structure FontHistoryEntry where
  usedValue : Nat
  fromInvoice : String
  saleId : Nat
  date : Nat
deriving DecidableEq, Repr

/-- A document of the sale collection as the ledger operations read and
write it.  `history` is set only on redemption records (`usedCashback`
true). -/
structure LedgerRecord where
  id : Nat
  cpf : String
  status : SaleStatus
  availableCashback : Nat
  expirateDate : Nat
  invoiceKey : String
  cashbackUseHistory : List UseHistoryEntry
  history : List FontHistoryEntry
  usedCashback : Bool
deriving DecidableEq, Repr

/-- A neutral ledger record used to build concrete test inputs. -/
def baseRecord : LedgerRecord :=
  { id := 0, cpf := "", status := .available, availableCashback := 0
    expirateDate := 0, invoiceKey := "", cashbackUseHistory := []
    history := [], usedCashback := false }

/-- The query of `_useCashback`:
`find({cpf, status: 'AVAILABLE', availableCashback: {$gt: 0}}, {},
{sort: {expirateDate: -1}})` — the matching records sorted by
`expirateDate` DESCENDING (farthest expiration first). -/
def fetchSalesWithCashback (db : List LedgerRecord) (cpf : String) :
    List LedgerRecord :=
  sortByKey (fun r => r.expirateDate)
    (db.filter
      (fun r => r.cpf = cpf ∧ r.status = .available ∧ 0 < r.availableCashback))
  |>.reverse

/-- The `while (usedValueAux)` loop of `_useCashback` over the fetched
records: a record covering the remaining amount is debited the remainder
and the loop stops; otherwise it is debited its whole balance and the loop
moves to the next record.  Both sides record matching history entries.
Running out of records with a remainder left is the JS crash
(`salesWithCashback[i]` is `undefined`), returned as `none`. -/
def useCashbackLoop (now : Nat) (invoiceKey : String) (saleId : Nat) :
    List LedgerRecord → Nat →
    Option (List FontHistoryEntry × List LedgerRecord)
  | _, 0 => some ([], [])
  | [], _ + 1 => none
  | r :: rest, v + 1 =>
    if r.availableCashback ≥ v + 1 then
      some
        ([{ usedValue := v + 1, fromInvoice := r.invoiceKey
            saleId := r.id, date := now }],
         [{ r with
              cashbackUseHistory := r.cashbackUseHistory ++
                [{ usedValue := v + 1, invoiceKey := invoiceKey
                   saleId := saleId, date := now }]
              availableCashback := r.availableCashback - (v + 1) }])
    else
      match useCashbackLoop now invoiceKey saleId rest (v + 1 - r.availableCashback) with
      | none => none
      | some (h, updated) =>
        some
          ({ usedValue := r.availableCashback, fromInvoice := r.invoiceKey
             saleId := r.id, date := now } :: h,
           { r with
               cashbackUseHistory := r.cashbackUseHistory ++
                 [{ usedValue := r.availableCashback, invoiceKey := invoiceKey
                    saleId := saleId, date := now }]
               availableCashback := 0 } :: updated)

/-- The write-back of `_useCashback`: one `updateOne` per touched record,
setting its `availableCashback` and `cashbackUseHistory`. -/
def applyUpdates (db updates : List LedgerRecord) : List LedgerRecord :=
  updates.foldl
    (fun acc u =>
      acc.map
        (fun r =>
          if r.id = u.id then
            { r with
                availableCashback := u.availableCashback
                cashbackUseHistory := u.cashbackUseHistory }
          else r))
    db

/-- `_useCashback`: fetch, run the allocation loop, persist the touched
records, and return the consuming-side history.  `none` is the JS crash of
the loop (no persistence happens in that case, the crash precedes the
write-back). -/
def useCashback (db : List LedgerRecord) (now : Nat) (cpf invoiceKey : String)
    (saleId : Nat) (usedValue : Nat) :
    Option (List FontHistoryEntry × List LedgerRecord) :=
  match useCashbackLoop now invoiceKey saleId
      (fetchSalesWithCashback db cpf) usedValue with
  | none => none
  | some (h, updated) => some (h, applyUpdates db updated)

/-- `_getBalance`: aggregate sum of `availableCashback` over this customer
records with status AVAILABLE (an absent aggregation result reads as 0). -/
def getBalance (db : List LedgerRecord) (cpf : String) : Nat :=
  (db.filter (fun r => r.cpf = cpf ∧ r.status = .available)).foldl
    (fun acc r => acc + r.availableCashback) 0

/-- `_createUsedCashbackSale` + `_saleModel.create` in the redemption branch
of `_generateCashback`: the new redemption record, created with status USED
before the allocator runs. -/
def createUsedCashbackSale (newId : Nat) (cpf invoiceKey : String) :
    LedgerRecord :=
  { id := newId, cpf := cpf, status := .used, availableCashback := 0
    expirateDate := 0, invoiceKey := invoiceKey, cashbackUseHistory := []
    history := [], usedCashback := true }

/-- The redemption branch of `_generateCashback` (lines 1218-1242 and the
final history write-back): check the aggregate balance BEFORE any mutation,
then create the redemption record, allocate through `_useCashback`, and
store the resulting history on the new record.  The returned list is the
whole collection after the operation; on a failure it is unchanged. -/
def generateCashbackRedemption (db : List LedgerRecord) (now : Nat)
    (cpf invoiceKey : String) (newSaleId : Nat) (usedCashbackValue : Nat) :
    Except String (List FontHistoryEntry) × List LedgerRecord :=
  if getBalance db cpf < usedCashbackValue then
    (.error "INSUFFICIENT_FUNDS", db)
  else
    let db1 := db ++ [createUsedCashbackSale newSaleId cpf invoiceKey]
    match useCashback db1 now cpf invoiceKey newSaleId usedCashbackValue with
    | none => (.error "TypeError", db1)
    | some (h, db2) =>
      (.ok h,
       db2.map (fun r => if r.id = newSaleId then { r with history := h } else r))

/-- `findOne({_id: id})` over the collection. -/
def findSale (db : List LedgerRecord) (id : Nat) : Option LedgerRecord :=
  db.find? (fun r => r.id = id)

/-- One aggregation pipeline of the redemption-cancellation path of
`cancel`: on the record matching `{_id: h.saleId, status: {$ne: 'EXPIRED'}}`,
add the entry `usedValue` back to `availableCashback` and drop from
`cashbackUseHistory` every entry whose `saleId` is the canceled sale. -/
def revertEntry (canceledId : Nat) (db : List LedgerRecord)
    (h : FontHistoryEntry) : List LedgerRecord :=
  db.map
    (fun r =>
      if r.id = h.saleId ∧ r.status ≠ .expired then
        { r with
            availableCashback := r.availableCashback + h.usedValue
            cashbackUseHistory :=
              r.cashbackUseHistory.filter (fun e => e.saleId ≠ canceledId) }
      else r)

/-- The redemption-cancellation path of `cancel`: revert every history
entry of the sale, then set the sale status to CANCELED. -/
def cancelRedemption (db : List LedgerRecord) (canceledId : Nat)
    (sale : LedgerRecord) : List LedgerRecord :=
  (sale.history.foldl (revertEntry canceledId) db).map
    (fun r => if r.id = canceledId then { r with status := .canceled } else r)

/-- The earning-cancellation path of `cancel`: set the status to CANCELED;
the `$unset` of `creditDate`/`expirateDate`/`availableCashback` is modelled
by zeroing those fields. -/
def cancelEarning (db : List LedgerRecord) (canceledId : Nat) :
    List LedgerRecord :=
  db.map
    (fun r =>
      if r.id = canceledId then
        { r with status := .canceled, availableCashback := 0, expirateDate := 0 }
      else r)

/-- `cancel`: guards in source order (missing sale, then the CANCELED
no-op, then the AVAILABLE and EXPIRED rejections), then one of the two
cancellation paths.  An `error` result is a throw: it happens before any
write, leaving the collection unchanged. -/
def cancelSale (db : List LedgerRecord) (id : Nat) :
    Except String (List LedgerRecord) :=
  match findSale db id with
  | none => .error "SALE_NOT_FOUND"
  | some sale =>
    if sale.status = .canceled then .ok db
    else if sale.status = .available then .error "CANT_CANCEL_AVAILABLE_SALE"
    else if sale.status = .expired then .error "CANT_CANCEL_EXPIRED_SALE"
    else if sale.usedCashback then .ok (cancelRedemption db id sale)
    else .ok (cancelEarning db id)

/-- Folding `acc + f x` over a list adds the sum of the mapped values. -/
theorem foldl_add_map {α : Type} (f : α → Nat) :
    ∀ (l : List α) (a : Nat),
      l.foldl (fun acc x => acc + f x) a = a + (l.map f).sum
  | [], a => by simp
  | x :: l, a => by
    simp [List.foldl_cons, foldl_add_map f l, Nat.add_assoc]

/-- Folding a guarded `acc + f x` over a list adds the sum of the mapped
values of the elements satisfying the guard. -/
theorem foldl_if_add {α : Type} (p : α → Prop) [DecidablePred p] (f : α → Nat) :
    ∀ (l : List α) (a : Nat),
      l.foldl (fun acc x => if p x then acc + f x else acc) a
        = a + ((l.filter (fun x => decide (p x))).map f).sum
  | [], a => by simp
  | x :: l, a => by
    by_cases hx : p x <;>
      simp [List.foldl_cons, hx, foldl_if_add p f l, Nat.add_assoc]

/-- `getBalance` is the sum of `availableCashback` over the AVAILABLE
records of the customer. -/
theorem getBalance_eq_sum (db : List LedgerRecord) (cpf : String) :
    getBalance db cpf =
      ((db.filter (fun r => r.cpf = cpf ∧ r.status = .available)).map
        (fun r => r.availableCashback)).sum := by
  have h := foldl_add_map (fun r : LedgerRecord => r.availableCashback)
    (db.filter (fun r => r.cpf = cpf ∧ r.status = .available)) 0
  simpa [getBalance] using h

/-- **C2.** For every redemption request whose amount exceeds the aggregate
available balance (sum of `availableCashback` over the AVAILABLE records of
the customer), the redemption branch of `_generateCashback` fails with
INSUFFICIENT_FUNDS and the collection is returned unchanged: the balance
check precedes every mutation, so the operation is all-or-nothing. -/
theorem generateCashbackRedemption_insufficient_funds (db : List LedgerRecord)
    (now : Nat) (cpf invoiceKey : String) (newSaleId usedCashbackValue : Nat)
    (h : ((db.filter (fun r => r.cpf = cpf ∧ r.status = .available)).map
        (fun r => r.availableCashback)).sum < usedCashbackValue) :
    generateCashbackRedemption db now cpf invoiceKey newSaleId usedCashbackValue
      = (.error "INSUFFICIENT_FUNDS", db) := by
  have hb : getBalance db cpf < usedCashbackValue := by
    rw [getBalance_eq_sum]; exact h
  simp [generateCashbackRedemption, hb]

/-- An earned record expiring soon (day 10, balance 300). -/
def recSoon : LedgerRecord :=
  { baseRecord with
      id := 1, cpf := "cpf1", availableCashback := 300
      expirateDate := 10, invoiceKey := "NF-A" }

/-- An earned record expiring later (day 20, balance 700). -/
def recLate : LedgerRecord :=
  { baseRecord with
      id := 2, cpf := "cpf1", availableCashback := 700
      expirateDate := 20, invoiceKey := "NF-B" }

/-- Witness for the INSUFFICIENT_FUNDS theorem: with balances [300, 700]
a redemption of 1001 fails and both balances are unchanged. -/
theorem generateCashbackRedemption_insufficient_funds_witness :
    generateCashbackRedemption [recSoon, recLate] 0 "cpf1" "NF-R" 9 1001
      = (.error "INSUFFICIENT_FUNDS", [recSoon, recLate]) :=
  generateCashbackRedemption_insufficient_funds [recSoon, recLate] 0 "cpf1"
    "NF-R" 9 1001 (by decide)

/-- **C1.** The allocation order of `_useCashback` contradicts the claimed
earliest-expiration-first order: with the soon record (expiration 10,
balance 300) and the late record (expiration 20, balance 700) both
AVAILABLE, redeeming 100 debits the LATE record (the query sorts
`expirateDate: -1`, descending) and leaves the soonest-expiring record
untouched at 300, while the claim requires the soonest-expiring record to
be spent first. -/
theorem useCashback_debits_latest_expiration_first :
    recSoon.expirateDate < recLate.expirateDate ∧
    useCashback [recSoon, recLate] 0 "cpf1" "NF-R" 9 100 =
      some ([{ usedValue := 100, fromInvoice := "NF-B", saleId := 2, date := 0 }],
        [recSoon,
         { recLate with
             availableCashback := 600
             cashbackUseHistory :=
               [{ usedValue := 100, invoiceKey := "NF-R", saleId := 9, date := 0 }] }]) := by
  constructor
  · decide
  · rfl

/-- **C7.** The guards of `cancel`: a missing sale fails with
SALE_NOT_FOUND; an AVAILABLE sale fails with CANT_CANCEL_AVAILABLE_SALE; an
EXPIRED sale fails with CANT_CANCEL_EXPIRED_SALE; an already CANCELED sale
is a successful no-op (idempotent).  Every failure is a throw before any
write, so the collection is unchanged. -/
theorem cancelSale_guards (db : List LedgerRecord) (id : Nat) :
    (findSale db id = none → cancelSale db id = .error "SALE_NOT_FOUND") ∧
    (∀ sale, findSale db id = some sale →
      (sale.status = .canceled → cancelSale db id = .ok db) ∧
      (sale.status = .available →
        cancelSale db id = .error "CANT_CANCEL_AVAILABLE_SALE") ∧
      (sale.status = .expired →
        cancelSale db id = .error "CANT_CANCEL_EXPIRED_SALE")) := by
  constructor
  · intro h
    simp [cancelSale, h]
  · intro sale hfind
    refine ⟨?_, ?_, ?_⟩ <;> intro hst <;> simp [cancelSale, hfind, hst]

/-- A sale already canceled. -/
def recCanceledC7 : LedgerRecord := { baseRecord with id := 4, status := .canceled }

/-- A sale with released, unconsumed cashback. -/
def recAvailableC7 : LedgerRecord := { baseRecord with id := 3, status := .available }

/-- An expired sale. -/
def recExpiredC7 : LedgerRecord := { baseRecord with id := 6, status := .expired }

/-- Witness for the cancel guards: each of the four guard outcomes on a
concrete one-record collection. -/
theorem cancelSale_guards_witness :
    cancelSale [] 5 = .error "SALE_NOT_FOUND" ∧
    cancelSale [recCanceledC7] 4 = .ok [recCanceledC7] ∧
    cancelSale [recAvailableC7] 3 = .error "CANT_CANCEL_AVAILABLE_SALE" ∧
    cancelSale [recExpiredC7] 6 = .error "CANT_CANCEL_EXPIRED_SALE" :=
  ⟨(cancelSale_guards [] 5).1 (by decide),
   (((cancelSale_guards [recCanceledC7] 4).2 recCanceledC7 (by decide)).1) (by decide),
   (((cancelSale_guards [recAvailableC7] 3).2 recAvailableC7 (by decide)).2.1) (by decide),
   (((cancelSale_guards [recExpiredC7] 6).2 recExpiredC7 (by decide)).2.2) (by decide)⟩

/-- An item whose part number has only two segments. -/
def itemTwoSegments : Item := { baseItem with partnumber := "A1.RED" }

/-- **C9 counterexample.** On a part number with fewer than 3 segments the
normalizer does fail, but by throwing a `TypeError` (calling `.trim()` on
`undefined`), not with a MALFORMED_PART_NUMBER error: no such error exists
anywhere in the source. -/
theorem processItem_no_malformed_error :
    processItem itemTwoSegments = .error "TypeError" ∧
    ("TypeError" : String) ≠ "MALFORMED_PART_NUMBER" :=
  ⟨rfl, by decide⟩

/-- **C9 (amended).** The normalizer fails (with a `TypeError`, not a
MALFORMED_PART_NUMBER error) on every part number splitting into fewer
than 3 segments; with at least 3 segments it sets model, colorCode and
size to the trimmed first three segments and
`totalPrice = unitPrice * quantity`. -/
theorem processItem_spec (it : Item) :
    ((jsSplit it.partnumber '.').length < 3 →
      processItem it = .error "TypeError") ∧
    (∀ m co sz rest, jsSplit it.partnumber '.' = m :: co :: sz :: rest →
      processItem it = .ok { it with
        model := jsTrim m
        colorCode := jsTrim co
        size := jsTrim sz
        totalPrice := it.unitPrice * it.quantity }) := by
  constructor
  · intro hlen
    rcases hsplit : jsSplit it.partnumber '.' with _ | ⟨m, _ | ⟨co, _ | ⟨sz, rest⟩⟩⟩
    · unfold processItem; rw [hsplit]
    · unfold processItem; rw [hsplit]
    · unfold processItem; rw [hsplit]
    · rw [hsplit] at hlen
      simp only [List.length_cons] at hlen
      exfalso; omega
  · intro m co sz rest hsplit
    unfold processItem
    rw [hsplit]

/-- A well-formed item: part number "A1. RED .M", price 250, quantity 3. -/
def itemWellFormed : Item :=
  { baseItem with partnumber := "A1. RED .M", unitPrice := 250, quantity := 3 }

/-- Witness for the amended normalizer theorem: both branches at concrete
items. -/
theorem processItem_spec_witness :
    processItem itemTwoSegments = .error "TypeError" ∧
    processItem itemWellFormed = .ok { itemWellFormed with
      model := "A1", colorCode := "RED", size := "M", totalPrice := 750 } :=
  ⟨(processItem_spec itemTwoSegments).1 (by decide),
   (processItem_spec itemWellFormed).2 "A1" " RED " "M" [] rfl⟩

/-- Bounded-fuel binary logarithm (128 halvings cover every magnitude the
model meets); `log2Fuel 128 n` is the bit position of the leading one of
`n ≥ 1`. -/
def log2Fuel : Nat → Nat → Nat
  | 0, _ => 0
  | fuel + 1, n => if n ≥ 2 then log2Fuel fuel (n / 2) + 1 else 0

/-- The binade of the positive rational `a / b` (that is, the integer `e`
with `2 ^ e ≤ a / b < 2 ^ (e + 1)`), computed from the leading-bit
positions of `a` and `b` with one comparison to settle the off-by-one. -/
def ratBinade (a b : Nat) : Int :=
  let e0 : Int := (log2Fuel 128 a : Int) - (log2Fuel 128 b : Int)
  let lt : Bool :=
    if 0 ≤ e0 then a < b * 2 ^ e0.toNat else a * 2 ^ (-e0).toNat < b
  if lt then e0 - 1 else e0

/-- Round the positive rational `(a / b) / 2 ^ s` to the nearest integer,
ties to even, over scaled `Nat` arithmetic. -/
def roundMantissa (a b : Nat) (s : Int) : Nat :=
  let A := if 0 ≤ s then a else a * 2 ^ (-s).toNat
  let B := if 0 ≤ s then b * 2 ^ s.toNat else b
  let n := A / B
  let r := A % B
  if 2 * r < B then n
  else if B < 2 * r then n + 1
  else if n % 2 = 0 then n else n + 1

/-- IEEE-754 binary64 rounding (round to nearest, ties to even, 53-bit
significand) of the positive rational `a / b`, returned as a significand
and exponent pair `(M, s)` of value `M * 2 ^ s`.  Subnormal underflow and
overflow, many orders of magnitude away from the monetary values the
calculator handles, are not modelled. -/
def floatRound (a b : Nat) : Nat × Int :=
  let s := ratBinade a b - 52
  (roundMantissa a b s, s)

/-- The unit cashback as the source actually computes it:
`_.floor(item.unitPrice * (campaign.percentCashback / 100))` evaluated in
binary64 floating point.  The integer operands are exact in binary64;
the division `pct / 100` rounds once, the multiplication by `unitPrice`
rounds once, and `Math.floor` of the positive result is exact. -/
def jsUnitCashback (unitPrice pct : Nat) : Nat :=
  if pct = 0 ∨ unitPrice = 0 then 0
  else
    let d := floatRound pct 100
    let a2 := if 0 ≤ d.2 then unitPrice * d.1 * 2 ^ d.2.toNat else unitPrice * d.1
    let b2 := if 0 ≤ d.2 then 1 else 2 ^ (-d.2).toNat
    let y := floatRound a2 b2
    if 0 ≤ y.2 then y.1 * 2 ^ y.2.toNat else y.1 / 2 ^ (-y.2).toNat

/-- **C3.** The percentage calculator does not satisfy the claimed exact
formula `unitCashback = floor(unitPrice * percentCashback / 100)`: the
source evaluates `_.floor(unitPrice * (percentCashback / 100))` in
binary64, and at `unitPrice = 100`, `percentCashback = 29` the chain
rounds `29 / 100` slightly below `0.29`, the product to
`28.999999999999996`, and the floor persists `28` — one below the exact
floor `29` that the claim (and the exact-arithmetic idealization
`unitCashbackOf`) gives on the same input. -/
theorem percentCashback_float_divergence :
    jsUnitCashback 100 29 = 28 ∧
    unitCashbackOf { baseCampaign with percentCashback := 29 }
      { baseItem with unitPrice := 100 } = 29 ∧
    (100 * 29 / 100 : Nat) = 29 := by
  refine ⟨by decide, by decide, by decide⟩

/-- A fixed-mode campaign whose fixed value 500 exceeds its own cap 100. -/
def c4FixedCampaign : Campaign :=
  { baseCampaign with valueCashback := 500, cashbackLimit := 100 }

/-- **C4 counterexample.** In fixed mode the cap is never enforced: with
`valueCashback = 500` and `cashbackLimit = 100` the persisted total is 500,
not the limit — the guard compares the limit against the local `total`
accumulator, which stays 0 outside the percentage branch. -/
theorem processSale_cap_skipped_in_fixed_mode :
    c4FixedCampaign.cashbackLimit = 100 ∧ (100 : Nat) < 500 ∧
    (processSaleCashback c4FixedCampaign baseSale).totalCashback = 500 :=
  ⟨rfl, by decide, rfl⟩

/-- **C4 (amended).** With `cashbackLimit` set, cap enforcement applies
only in percentage mode: there, a computed total above the limit clamps the
sale total to the limit and clears both cashback fields of every item, and
a total not above the limit leaves the mode output unchanged; in fixed mode
the comparison is against the accumulator of the percentage branch, which
is zero, so the cap never fires and the fixed value is persisted as is. -/
theorem processSale_cap (c : Campaign) (s : Sale) (hl : c.cashbackLimit ≠ 0) :
    (c.percentCashback ≠ 0 → c.cashbackLimit < percentTotal c s.items →
      (processSaleCashback c s).totalCashback = c.cashbackLimit ∧
      ∀ it ∈ (processSaleCashback c s).items,
        it.unitCashback = none ∧ it.totalCashback = none) ∧
    (c.percentCashback ≠ 0 → ¬ c.cashbackLimit < percentTotal c s.items →
      processSaleCashback c s = (applyCashbackMode c { s with usedCampaign := c.code }).1) ∧
    (c.percentCashback = 0 →
      processSaleCashback c s =
        { s with usedCampaign := c.code, totalCashback := c.valueCashback }) := by
  refine ⟨?_, ?_, ?_⟩
  · intro hp hlt
    constructor
    · simp [processSaleCashback, applyCashbackLimit, applyCashbackMode, hp, hl, hlt]
    · intro it hit
      simp [processSaleCashback, applyCashbackLimit, applyCashbackMode, hp, hl, hlt] at hit
      obtain ⟨a, -, rfl⟩ := hit
      exact ⟨rfl, rfl⟩
  · intro hp hlt
    simp [processSaleCashback, applyCashbackLimit, applyCashbackMode, hp, hlt]
  · intro hp
    simp [processSaleCashback, applyCashbackLimit, applyCashbackMode, hp]

/-- Folding a guarded one-element push over a list appends one copy of the
pushed value per element satisfying the guard. -/
theorem foldl_push_replicate {α : Type} (q : α → Bool) (code : String) :
    ∀ (l : List α) (init : List String),
      l.foldl (fun acc r => if q r then acc ++ [code] else acc) init
        = init ++ List.replicate (l.countP q) code
  | [], init => by simp
  | x :: l, init => by
    by_cases hx : q x <;>
      simp [List.foldl_cons, hx, foldl_push_replicate q code l,
        List.countP_cons, List.replicate_succ, List.append_assoc,
        List.singleton_append]

/-- **C10.** Item-level matching pushes the campaign code once per
satisfied rule, so an item satisfying k rules carries the code k times in
its `matchedCampaigns` (a list with duplicates, not a set); the
min-sale-value accumulator sums `totalPrice` by membership
(`includes`), so it only depends on whether the code is present, never on
its multiplicity; and a falsy (empty) rule facet passes for every item
value. -/
theorem itemsRule_duplicates_and_membership (c : Campaign) :
    (∀ it : Item, (markItem c it).matchedCampaigns
        = it.matchedCampaigns
          ++ List.replicate (c.rules.countP (fun r => ruleMatches r it)) c.code) ∧
    (∀ it : Item, (markItem c it).matchedCampaigns.count c.code
        = it.matchedCampaigns.count c.code
          + c.rules.countP (fun r => ruleMatches r it)) ∧
    (∀ items : List Item, matchedTotalValue c items
        = ((items.filter (fun it => decide (c.code ∈ it.matchedCampaigns))).map
            (fun it => it.totalPrice)).sum) ∧
    (∀ (items : List Item) (f : Item → Item),
      (∀ it : Item,
        (c.code ∈ (f it).matchedCampaigns ↔ c.code ∈ it.matchedCampaigns) ∧
        (f it).totalPrice = it.totalPrice) →
      matchedTotalValue c (items.map f) = matchedTotalValue c items) ∧
    (∀ v : String, facetOk "" v = true) := by
  have hsum : ∀ items : List Item, matchedTotalValue c items
      = ((items.filter (fun it => decide (c.code ∈ it.matchedCampaigns))).map
          (fun it => it.totalPrice)).sum := by
    intro items
    have h := foldl_if_add (fun it : Item => c.code ∈ it.matchedCampaigns)
      (fun it => it.totalPrice) items 0
    simpa [matchedTotalValue] using h
  have hpush : ∀ it : Item, (markItem c it).matchedCampaigns
      = it.matchedCampaigns
        ++ List.replicate (c.rules.countP (fun r => ruleMatches r it)) c.code := by
    intro it
    simpa [markItem] using
      foldl_push_replicate (fun r => ruleMatches r it) c.code c.rules
        it.matchedCampaigns
  refine ⟨hpush, ?_, hsum, ?_, ?_⟩
  · intro it
    rw [hpush it]
    simp [List.count_append]
  · intro items f hf
    rw [hsum, hsum]
    induction items with
    | nil => rfl
    | cons x xs ih =>
      by_cases hx : c.code ∈ x.matchedCampaigns
      · have hfx : c.code ∈ (f x).matchedCampaigns := (hf x).1.mpr hx
        simp [List.filter_cons, hx, hfx, (hf x).2, ih]
      · have hfx : c.code ∉ (f x).matchedCampaigns := fun h => hx ((hf x).1.mp h)
        simp [List.filter_cons, hx, hfx, ih]
  · intro v
    rfl

/-- A rule constraining only the color facet. -/
def c10RuleRed : Rule := { emptyRule with colorCode := "RED" }

/-- A campaign with two rules that both match a red item: the unconstrained
rule and the red rule. -/
def c10Campaign : Campaign := { baseCampaign with rules := [emptyRule, c10RuleRed] }

/-- A red item worth 40. -/
def c10Item : Item := { baseItem with colorCode := "RED", totalPrice := 40 }

/-- Witness for the duplicates-and-membership theorem: the red item matches
both rules, so the code is pushed twice, and the min-value accumulator
still counts its price once. -/
theorem itemsRule_duplicates_and_membership_witness :
    (markItem c10Campaign c10Item).matchedCampaigns = ["C", "C"] ∧
    matchedTotalValue c10Campaign [markItem c10Campaign c10Item] = 40 :=
  ⟨((itemsRule_duplicates_and_membership c10Campaign).1 c10Item).trans (by decide),
   ((itemsRule_duplicates_and_membership c10Campaign).2.2.1
      [markItem c10Campaign c10Item]).trans (by decide)⟩

/-- The inline guard of the cart check in `_checkSaleCampaign` is
equivalent to the check itself failing: an unset `maxProductsCart` makes
`_checkMaxsalesCartRule` pass on its own. -/
theorem maxCart_guard (c : Campaign) (items : List Item) :
    (c.maxProductsCart ≠ 0 ∧ ¬ checkMaxsalesCartRule c items)
      ↔ checkMaxsalesCartRule c items = false := by
  constructor
  · rintro ⟨-, hnot⟩
    cases hb : checkMaxsalesCartRule c items
    · rfl
    · exact absurd hb hnot
  · intro hfalse
    refine ⟨?_, by simp [hfalse]⟩
    intro h0
    simp [checkMaxsalesCartRule, h0] at hfalse

/-- The inline guard of the minimum-value check in `_checkSaleCampaign` is
equivalent to the check itself failing. -/
theorem minValue_guard (c : Campaign) (items : List Item) :
    (c.minSaleValue ≠ 0 ∧ ¬ checkMinSaleValueRule c items)
      ↔ checkMinSaleValueRule c items = false := by
  constructor
  · rintro ⟨-, hnot⟩
    cases hb : checkMinSaleValueRule c items
    · rfl
    · exact absurd hb hnot
  · intro hfalse
    refine ⟨?_, by simp [hfalse]⟩
    intro h0
    simp [checkMinSaleValueRule, h0] at hfalse

/-- The inline guard of the participation check in `_checkSaleCampaign` is
equivalent to the guarded participation rule failing. -/
theorem cpf_guard (c : Campaign) (participations : Nat) :
    (c.cpfParticipationLimit ≠ 0 ∧
      ¬ checkCpfParticipationLimit c.cpfParticipationLimit participations)
      ↔ cpfParticipationCheck c participations = false := by
  unfold cpfParticipationCheck
  constructor
  · rintro ⟨h0, hnot⟩
    cases hb : checkCpfParticipationLimit c.cpfParticipationLimit participations
    · simp [h0]
    · exact absurd hb hnot
  · intro hfalse
    simp only [Bool.or_eq_false_iff, decide_eq_false_iff_not] at hfalse
    exact ⟨hfalse.1, by simp [hfalse.2]⟩

/-- **C6.** `_checkSaleCampaign` evaluates the seven checks in the fixed
order sales-channel, subsidiaries, payment-method, item rules,
max-products-cart, min-sale-value, cpf-participation-limit, and on
rejection reports exactly the FAIL code of the first check in that order
that fails; when every check passes the campaign code is appended to the
sale `matchedCampaigns`. -/
theorem checkSaleCampaign_first_failure (c : Campaign) (s : Sale)
    (participations : Nat) :
    (checkSaleCampaign c s participations).1
      = firstFailure (ruleChecks c s participations) ∧
    ((checkSaleCampaign c s participations).1 = none →
      (checkSaleCampaign c s participations).2.matchedCampaigns
        = s.matchedCampaigns ++ [c.code]) := by
  by_cases h1 : checkSalesChannelRule c s <;>
  by_cases h2 : checkSubsidiariesChannelRule c s <;>
  by_cases h3 : checkPaymentMethodRule c s <;>
  by_cases h4 : (checkItemsThatFollowRules c s.items).2 <;>
  by_cases h5 : checkMaxsalesCartRule c (checkItemsThatFollowRules c s.items).1 <;>
  by_cases h6 : checkMinSaleValueRule c (checkItemsThatFollowRules c s.items).1 <;>
  by_cases h7 : cpfParticipationCheck c participations <;>
  constructor <;>
  (simp only [checkSaleCampaign, maxCart_guard, minValue_guard, cpf_guard]
   simp [ruleChecks, firstFailure, h1, h2, h3, h4, h5, h6, h7])

/-- The last element of a list is a maximum for the key. -/
def KeyMaxLast {α : Type} (key : α → Nat) (l : List α) : Prop :=
  ∀ m, l.getLast? = some m → ∀ x ∈ l, key x ≤ key m

/-- Stable insertion never produces the empty list. -/
theorem insertByKey_ne_nil {α : Type} (key : α → Nat) (a : α) (l : List α) :
    insertByKey key a l ≠ [] := by
  cases l with
  | nil => simp [insertByKey]
  | cons b t =>
    unfold insertByKey
    split <;> simp

/-- Membership in a stable insertion. -/
theorem mem_insertByKey {α : Type} (key : α → Nat) (a x : α) :
    ∀ l : List α, x ∈ insertByKey key a l ↔ x = a ∨ x ∈ l
  | [] => by simp [insertByKey]
  | b :: t => by
    unfold insertByKey
    split
    · simp
    · simp only [List.mem_cons, mem_insertByKey key a x t]
      tauto

/-- The last element after a stable insertion: the old last survives unless
the new key strictly exceeds it, in which case the new element lands at the
end. -/
theorem getLast?_insertByKey {α : Type} (key : α → Nat) (a : α) :
    ∀ l : List α, KeyMaxLast key l →
      (insertByKey key a l).getLast? =
        match l.getLast? with
        | none => some a
        | some m => if key a ≤ key m then some m else some a
  | [], _ => by simp [insertByKey]
  | b :: t, hmax => by
    unfold insertByKey
    obtain ⟨m, hm⟩ : ∃ m, (b :: t).getLast? = some m := by
      have := List.getLast?_isSome.mpr (List.cons_ne_nil b t)
      exact Option.isSome_iff_exists.mp this
    rw [hm]
    have hbm : key b ≤ key m := hmax m hm b (List.mem_cons_self b t)
    split
    case isTrue hab =>
      have ham : key a ≤ key m := le_trans hab hbm
      rw [List.getLast?_cons_cons, hm]
      show some m = if key a ≤ key m then some m else some a
      rw [if_pos ham]
    case isFalse hab =>
      cases t with
      | nil =>
        simp only [List.getLast?_singleton, Option.some.injEq] at hm
        subst hm
        simp [insertByKey, if_neg hab]
      | cons c t' =>
        have htm : (c :: t').getLast? = some m := by
          rw [List.getLast?_cons_cons] at hm; exact hm
        have htail : KeyMaxLast key (c :: t') := by
          intro m' hm' x hx
          have : (b :: c :: t').getLast? = some m' := by
            rw [List.getLast?_cons_cons]; exact hm'
          exact hmax m' this x (List.mem_cons_of_mem b hx)
        obtain ⟨y, ys, hy⟩ : ∃ y ys, insertByKey key a (c :: t') = y :: ys := by
          rcases hins : insertByKey key a (c :: t') with _ | ⟨y, ys⟩
          · exact absurd hins (insertByKey_ne_nil key a (c :: t'))
          · exact ⟨y, ys, rfl⟩
        have hrec := getLast?_insertByKey key a (c :: t') htail
        rw [htm] at hrec
        rw [hy, List.getLast?_cons_cons, ← hy, hrec]

/-- Stable insertion preserves the last-is-max property. -/
theorem keyMaxLast_insertByKey {α : Type} (key : α → Nat) (a : α)
    (l : List α) (h : KeyMaxLast key l) :
    KeyMaxLast key (insertByKey key a l) := by
  intro m' hm' x hx
  rw [getLast?_insertByKey key a l h] at hm'
  rw [mem_insertByKey key a x l] at hx
  rcases hl : l.getLast? with _ | m
  · rw [hl] at hm'
    change some a = some m' at hm'
    have hnil : l = [] := List.getLast?_eq_none_iff.mp hl
    subst hnil
    simp only [Option.some.injEq] at hm'
    subst hm'
    rcases hx with rfl | hx
    · exact le_refl _
    · simp at hx
  · rw [hl] at hm'
    change (if key a ≤ key m then some m else some a) = some m' at hm'
    by_cases ham : key a ≤ key m
    · rw [if_pos ham] at hm'
      simp only [Option.some.injEq] at hm'
      subst hm'
      rcases hx with rfl | hx
      · exact ham
      · exact h m hl x hx
    · rw [if_neg ham] at hm'
      simp only [Option.some.injEq] at hm'
      subst hm'
      rcases hx with rfl | hx
      · exact le_refl _
      · exact le_trans (h m hl x hx) (le_of_lt (Nat.lt_of_not_le ham))

/-- The sorted list always has a maximal last element. -/
theorem keyMaxLast_sortByKey {α : Type} (key : α → Nat) :
    ∀ l : List α, KeyMaxLast key (sortByKey key l)
  | [] => by intro m hm x hx; simp [sortByKey] at hx
  | a :: l => by
    unfold sortByKey
    exact keyMaxLast_insertByKey key a _ (keyMaxLast_sortByKey key l)

/-- The last element of the stable ascending sort is exactly the last
input element attaining the maximal key. -/
theorem getLast?_sortByKey {α : Type} (key : α → Nat) :
    ∀ l : List α, (sortByKey key l).getLast? = lastMaxByKey key l
  | [] => rfl
  | a :: l => by
    unfold sortByKey lastMaxByKey
    rw [getLast?_insertByKey key a _ (keyMaxLast_sortByKey key l),
      getLast?_sortByKey key l]
    rcases lastMaxByKey key l with _ | m <;> rfl

/-- `lastMaxByKey` always finds a candidate on a non-empty list. -/
theorem lastMaxByKey_cons_ne_none {α : Type} (key : α → Nat) (a : α)
    (l : List α) : lastMaxByKey key (a :: l) ≠ none := by
  unfold lastMaxByKey
  rcases lastMaxByKey key l with _ | m
  · simp
  · by_cases ham : key a ≤ key m <;> simp [ham]

/-- The element `lastMaxByKey` picks belongs to the list and maximises the
key over it. -/
theorem lastMaxByKey_spec {α : Type} (key : α → Nat) :
    ∀ (l : List α) (m : α), lastMaxByKey key l = some m →
      m ∈ l ∧ ∀ x ∈ l, key x ≤ key m
  | [], m => by intro h; simp [lastMaxByKey] at h
  | a :: l, m => by
    intro h
    unfold lastMaxByKey at h
    rcases hl : lastMaxByKey key l with _ | m'
    · rw [hl] at h
      change some a = some m at h
      simp only [Option.some.injEq] at h
      subst h
      have hnil : l = [] := by
        cases l with
        | nil => rfl
        | cons c t => exact absurd hl (lastMaxByKey_cons_ne_none key c t)
      subst hnil
      exact ⟨List.mem_singleton_self a, by simp⟩
    · rw [hl] at h
      change (if key a ≤ key m' then some m' else some a) = some m at h
      obtain ⟨hmem, hbound⟩ := lastMaxByKey_spec key l m' hl
      by_cases ham : key a ≤ key m'
      · rw [if_pos ham] at h
        simp only [Option.some.injEq] at h
        subst h
        refine ⟨List.mem_cons_of_mem a hmem, ?_⟩
        intro x hx
        rcases List.mem_cons.mp hx with rfl | hx
        · exact ham
        · exact hbound x hx
      · rw [if_neg ham] at h
        simp only [Option.some.injEq] at h
        subst h
        refine ⟨List.mem_cons_self a l, ?_⟩
        intro x hx
        rcases List.mem_cons.mp hx with rfl | hx
        · exact le_refl _
        · exact le_trans (hbound x hx) (le_of_lt (Nat.lt_of_not_le ham))

/-- **C5.** On a non-empty candidate list, `_findSaleWithBetterCampaign`
(stable ascending sort by `totalCashback`, then `pop`) returns a candidate
of maximal `totalCashback`, namely the last candidate in input order
attaining the maximum (ties go to the later candidate), and every
candidate, the non-selected ones included, is filed as a compact summary
among the alternatives. -/
theorem findSaleWithBetterCampaign_max (sales : List Sale) (h : sales ≠ []) :
    ∃ best, findSaleWithBetterCampaign sales = some best ∧ best ∈ sales ∧
      (∀ s ∈ sales, s.totalCashback ≤ best.totalCashback) ∧
      findSaleWithBetterCampaign sales
        = lastMaxByKey (fun s => s.totalCashback) sales ∧
      (∀ s ∈ sales,
        ({ usedCampaign := s.usedCampaign, totalCashback := s.totalCashback } :
          SaleSummary) ∈ saleWithOtherCampaigns sales) := by
  have heq : findSaleWithBetterCampaign sales
      = lastMaxByKey (fun s : Sale => s.totalCashback) sales :=
    getLast?_sortByKey (fun s : Sale => s.totalCashback) sales
  obtain ⟨best, hbest⟩ : ∃ best,
      lastMaxByKey (fun s : Sale => s.totalCashback) sales = some best := by
    cases sales with
    | nil => exact absurd rfl h
    | cons a l =>
      rcases hsome : lastMaxByKey (fun s : Sale => s.totalCashback) (a :: l)
        with _ | m
      · exact absurd hsome
          (lastMaxByKey_cons_ne_none (fun s : Sale => s.totalCashback) a l)
      · exact ⟨m, rfl⟩
  obtain ⟨hmem, hbound⟩ :=
    lastMaxByKey_spec (fun s : Sale => s.totalCashback) sales best hbest
  refine ⟨best, heq.trans hbest, hmem, hbound, heq, ?_⟩
  intro s hs
  exact List.mem_map_of_mem _ hs

/-- A 500-cashback candidate. -/
def saleTotal500 : Sale := { baseSale with usedCampaign := "A", totalCashback := 500 }

/-- A 1200-cashback candidate. -/
def saleTotal1200 : Sale := { baseSale with usedCampaign := "B", totalCashback := 1200 }

/-- A 900-cashback candidate. -/
def saleTotal900 : Sale := { baseSale with usedCampaign := "D", totalCashback := 900 }

/-- Witness for the selector theorem: totals [500, 1200, 900] select the
1200 candidate. -/
theorem findSaleWithBetterCampaign_max_witness :
    findSaleWithBetterCampaign [saleTotal500, saleTotal1200, saleTotal900]
      = some saleTotal1200 := by
  obtain ⟨best, -, -, -, h4, -⟩ :=
    findSaleWithBetterCampaign_max [saleTotal500, saleTotal1200, saleTotal900]
      (by decide)
  rw [h4]
  decide

/-- A 50% campaign capped at 100. -/
def c4PctCampaign : Campaign :=
  { baseCampaign with percentCashback := 50, cashbackLimit := 100 }

/-- A matched item computing 100 * 2 = 200 of cashback. -/
def c4Item : Item :=
  { baseItem with unitPrice := 200, quantity := 2, matchedCampaigns := ["C"] }

/-- A sale holding the capped item. -/
def c4Sale : Sale := { baseSale with items := [c4Item] }

/-- Witness for the amended cap theorem: the percentage-mode cap clamps
200 down to 100, and the fixed-mode campaign keeps its uncapped 500. -/
theorem processSale_cap_witness :
    (processSaleCashback c4PctCampaign c4Sale).totalCashback = 100 ∧
    processSaleCashback c4FixedCampaign baseSale
      = { baseSale with usedCampaign := "C", totalCashback := 500 } :=
  ⟨((processSale_cap c4PctCampaign c4Sale (by decide)).1 (by decide)
      (by decide)).1,
   (processSale_cap c4FixedCampaign baseSale (by decide)).2.2 rfl⟩

/-- A campaign passing every check for the matcher witness. -/
def c6Campaign : Campaign :=
  { baseCampaign with salesChannel := ["ECOM"], rules := [emptyRule] }

/-- A sale passing every check of `c6Campaign`. -/
def c6Sale : Sale :=
  { baseSale with salesChannel := "ECOM", items := [baseItem] }

/-- Witness for the first-failure theorem: an all-pass pair reports no
failure and appends the campaign code. -/
theorem checkSaleCampaign_first_failure_witness :
    (checkSaleCampaign c6Campaign c6Sale 0).1
      = firstFailure (ruleChecks c6Campaign c6Sale 0) ∧
    (checkSaleCampaign c6Campaign c6Sale 0).2.matchedCampaigns = ["C"] :=
  ⟨(checkSaleCampaign_first_failure c6Campaign c6Sale 0).1,
   (checkSaleCampaign_first_failure c6Campaign c6Sale 0).2 (by decide)⟩

/-- The per-record update of one reverted history entry (the `$set` stage of
the aggregation pipeline in the redemption-cancellation path). -/
def revertStep (canceledId : Nat) (r : LedgerRecord) (h : FontHistoryEntry) :
    LedgerRecord :=
  if r.id = h.saleId ∧ r.status ≠ .expired then
    { r with
        availableCashback := r.availableCashback + h.usedValue
        cashbackUseHistory :=
          r.cashbackUseHistory.filter (fun e => e.saleId ≠ canceledId) }
  else r

/-- The effect of reverting a whole history on a single record. -/
def applyEntries (canceledId : Nat) (entries : List FontHistoryEntry)
    (r : LedgerRecord) : LedgerRecord :=
  entries.foldl (revertStep canceledId) r

/-- `revertEntry` is the pointwise `revertStep` over the collection. -/
theorem revertEntry_eq_map (canceledId : Nat) (db : List LedgerRecord)
    (h : FontHistoryEntry) :
    revertEntry canceledId db h = db.map (fun r => revertStep canceledId r h) :=
  rfl

/-- Reverting a history over the collection acts pointwise on records. -/
theorem foldl_revertEntry_eq_map (canceledId : Nat) :
    ∀ (entries : List FontHistoryEntry) (db : List LedgerRecord),
      entries.foldl (revertEntry canceledId) db
        = db.map (applyEntries canceledId entries)
  | [], db => by
    rw [List.foldl_nil]
    exact (List.map_id' db).symm
  | h :: t, db => by
    rw [List.foldl_cons,
      foldl_revertEntry_eq_map canceledId t (revertEntry canceledId db h),
      revertEntry_eq_map, List.map_map]
    rfl

/-- A revert step never changes the record id. -/
theorem revertStep_id (canceledId : Nat) (r : LedgerRecord)
    (h : FontHistoryEntry) : (revertStep canceledId r h).id = r.id := by
  unfold revertStep; split <;> rfl

/-- A revert step never changes the record status. -/
theorem revertStep_status (canceledId : Nat) (r : LedgerRecord)
    (h : FontHistoryEntry) : (revertStep canceledId r h).status = r.status := by
  unfold revertStep; split <;> rfl

/-- Reverting a history never changes the record id. -/
theorem applyEntries_id (canceledId : Nat) :
    ∀ (entries : List FontHistoryEntry) (r : LedgerRecord),
      (applyEntries canceledId entries r).id = r.id
  | [], _ => rfl
  | h :: t, r =>
    (applyEntries_id canceledId t (revertStep canceledId r h)).trans
      (revertStep_id canceledId r h)

/-- An EXPIRED source record is left completely untouched by the revert. -/
theorem applyEntries_expired (canceledId : Nat) :
    ∀ (entries : List FontHistoryEntry) (r : LedgerRecord),
      r.status = .expired → applyEntries canceledId entries r = r
  | [], _, _ => rfl
  | h :: t, r, hst => by
    have hstep : revertStep canceledId r h = r := by
      unfold revertStep
      rw [if_neg (fun hc => hc.2 hst)]
    show applyEntries canceledId t (revertStep canceledId r h) = r
    rw [hstep]
    exact applyEntries_expired canceledId t r hst

/-- A record referenced by no history entry is left untouched. -/
theorem applyEntries_untouched (canceledId : Nat) :
    ∀ (entries : List FontHistoryEntry) (r : LedgerRecord),
      (∀ e ∈ entries, r.id ≠ e.saleId) → applyEntries canceledId entries r = r
  | [], _, _ => rfl
  | h :: t, r, hnone => by
    have hstep : revertStep canceledId r h = r := by
      unfold revertStep
      rw [if_neg (fun hc => hnone h (List.mem_cons_self h t) hc.1)]
    show applyEntries canceledId t (revertStep canceledId r h) = r
    rw [hstep]
    exact applyEntries_untouched canceledId t r
      (fun e he => hnone e (List.mem_cons_of_mem h he))

/-- On a history whose source ids are distinct, a live record referenced by
the entry `h` receives exactly `h.usedValue` back and has its
`cashbackUseHistory` filtered once. -/
theorem applyEntries_unique (canceledId : Nat) :
    ∀ (entries : List FontHistoryEntry) (r : LedgerRecord)
      (h : FontHistoryEntry),
      r.status ≠ .expired → h ∈ entries → r.id = h.saleId →
      (entries.map (fun e => e.saleId)).Nodup →
      applyEntries canceledId entries r
        = { r with
              availableCashback := r.availableCashback + h.usedValue
              cashbackUseHistory :=
                r.cashbackUseHistory.filter (fun e => e.saleId ≠ canceledId) }
  | [], r, h => by intro _ hmem; simp at hmem
  | h' :: t, r, h => by
    intro hstat hmem hid hnodup
    have hnodup' := List.nodup_cons.mp hnodup
    rcases List.mem_cons.mp hmem with rfl | hmem'
    · have hstep : revertStep canceledId r h
          = { r with
                availableCashback := r.availableCashback + h.usedValue
                cashbackUseHistory :=
                  r.cashbackUseHistory.filter (fun e => e.saleId ≠ canceledId) } := by
        unfold revertStep
        rw [if_pos ⟨hid, hstat⟩]
      show applyEntries canceledId t (revertStep canceledId r h) = _
      rw [hstep]
      apply applyEntries_untouched
      intro e he heq
      have hememap : e.saleId ∈ t.map (fun e => e.saleId) :=
        List.mem_map_of_mem _ he
      rw [← heq, hid] at hememap
      exact hnodup'.1 hememap
    · have hne : r.id ≠ h'.saleId := by
        rw [hid]
        intro hcontra
        have : h.saleId ∈ t.map (fun e => e.saleId) :=
          List.mem_map_of_mem _ hmem'
        rw [hcontra] at this
        exact hnodup'.1 this
      have hstep : revertStep canceledId r h' = r := by
        unfold revertStep
        rw [if_neg (fun hc => hne hc.1)]
      show applyEntries canceledId t (revertStep canceledId r h') = _
      rw [hstep]
      exact applyEntries_unique canceledId t r h hstat hmem' hid hnodup'.2

/-- **C8.** Canceling a redemption sale (usedCashback true, status neither
CANCELED, AVAILABLE nor EXPIRED) reverts every history entry pointwise:
a non-EXPIRED source record gets exactly that entry's usedValue added back
to `availableCashback` and every `cashbackUseHistory` entry pointing at the
canceled sale removed; an EXPIRED source record is left completely
untouched; and the canceled sale's own status becomes CANCELED. -/
theorem cancelRedemption_restores (db : List LedgerRecord) (id : Nat)
    (sale : LedgerRecord)
    (hfind : findSale db id = some sale)
    (hused : sale.usedCashback = true)
    (hnc : sale.status ≠ .canceled)
    (hna : sale.status ≠ .available)
    (hnx : sale.status ≠ .expired)
    (hnodup : (sale.history.map (fun e => e.saleId)).Nodup) :
    cancelSale db id = .ok (cancelRedemption db id sale) ∧
    cancelRedemption db id sale
      = (db.map (applyEntries id sale.history)).map
          (fun r => if r.id = id then { r with status := .canceled } else r) ∧
    (∀ h ∈ sale.history, ∀ r ∈ db, r.id = h.saleId → r.status ≠ .expired →
      applyEntries id sale.history r
        = { r with
              availableCashback := r.availableCashback + h.usedValue
              cashbackUseHistory :=
                r.cashbackUseHistory.filter (fun e => e.saleId ≠ id) }) ∧
    (∀ r ∈ db, r.status = .expired → applyEntries id sale.history r = r) ∧
    (∀ r ∈ db, r.status = .expired → r.id ≠ id →
      r ∈ cancelRedemption db id sale) ∧
    (∀ r' ∈ cancelRedemption db id sale, r'.id = id → r'.status = .canceled) := by
  have hdb : cancelRedemption db id sale
      = (db.map (applyEntries id sale.history)).map
          (fun r => if r.id = id then { r with status := .canceled } else r) := by
    unfold cancelRedemption
    rw [foldl_revertEntry_eq_map]
  refine ⟨?_, hdb, ?_, ?_, ?_, ?_⟩
  · simp [cancelSale, hfind, hnc, hna, hnx, hused]
  · intro h hh r _ hid hst
    exact applyEntries_unique id sale.history r h hst hh hid hnodup
  · intro r _ hst
    exact applyEntries_expired id sale.history r hst
  · intro r hr hst hid
    rw [hdb]
    refine List.mem_map.mpr ⟨applyEntries id sale.history r, List.mem_map_of_mem _ hr, ?_⟩
    rw [applyEntries_expired id sale.history r hst]
    rw [if_neg hid]
  · intro r' hr' hid'
    rw [hdb] at hr'
    obtain ⟨q, hq, rfl⟩ := List.mem_map.mp hr'
    by_cases hq' : q.id = id
    · rw [if_pos hq']
    · rw [if_neg hq'] at hid' ⊢
      exact absurd hid' hq'

/-- An expired source record holding a stale consumption entry of the
redemption sale 9. -/
def recSourceExpired : LedgerRecord :=
  { baseRecord with
      id := 1, status := .expired, invoiceKey := "NF-A"
      cashbackUseHistory :=
        [{ usedValue := 50, invoiceKey := "NF-R", saleId := 9, date := 0 }] }

/-- A live source record the redemption sale 9 consumed 100 from. -/
def recSourceLive : LedgerRecord :=
  { baseRecord with
      id := 2, status := .available, availableCashback := 600
      invoiceKey := "NF-B"
      cashbackUseHistory :=
        [{ usedValue := 100, invoiceKey := "NF-R", saleId := 9, date := 0 }] }

/-- The redemption sale to cancel: it consumed 100 from record 2 and 50
from record 1. -/
def redemptionSale : LedgerRecord :=
  { baseRecord with
      id := 9, status := .used, usedCashback := true
      history :=
        [{ usedValue := 100, fromInvoice := "NF-B", saleId := 2, date := 0 },
         { usedValue := 50, fromInvoice := "NF-A", saleId := 1, date := 0 }] }

/-- The collection for the redemption-cancellation witness. -/
def dbRedemption : List LedgerRecord :=
  [recSourceExpired, recSourceLive, redemptionSale]

/-- Witness for the redemption-cancellation theorem: the live source gets
its 100 back and its history entry removed, the expired source is
untouched. -/
theorem cancelRedemption_restores_witness :
    cancelSale dbRedemption 9 = .ok (cancelRedemption dbRedemption 9 redemptionSale) ∧
    applyEntries 9 redemptionSale.history recSourceLive
      = { recSourceLive with availableCashback := 700, cashbackUseHistory := [] } ∧
    applyEntries 9 redemptionSale.history recSourceExpired = recSourceExpired := by
  have H := cancelRedemption_restores dbRedemption 9 redemptionSale
    (by decide) (by decide) (by decide) (by decide) (by decide) (by decide)
  refine ⟨H.1, ?_, ?_⟩
  · exact (H.2.2.1
      { usedValue := 100, fromInvoice := "NF-B", saleId := 2, date := 0 }
      (by decide) recSourceLive (by decide) (by decide) (by decide)).trans
      (by decide)
  · exact H.2.2.2.1 recSourceExpired (by decide) (by decide)
